import Mathlib

/-!
# Verification of the concurrent task-execution toolkit

Shallow embedding of the worker pool (`internal/worker/pool.go`), batch
executor and TTL cache (`internal/concurrent/batch.go`) and pipeline
(`internal/concurrent/pipeline.go`), with theorems settling the spec claims.

Machine integers in the source are Go `int`; all quantities modelled here
(retry counts, queue lengths, batch sizes, times) are small non-negative
values far below overflow, so they are embedded as `Nat`. Go durations are
modelled in whole seconds (the source only ever builds durations as
`n * time.Second`). Go's `error` values are modelled by the inductive
`GoError`; `nil` errors are `Option.none`.
-/

namespace Worker

/-- Go `error` values relevant to the worker pool.
`queueFull` and `noHandler` are the two `var` errors declared at the bottom
of `pool.go`. `ctxCanceled` is `context.Canceled`, the value
`wp.ctx.Err()` yields after `wp.cancel()` has run. `poolClosed` is the
error value the spec calls `ErrPoolClosed`; no such value is declared or
produced anywhere in the source — it exists here only so the spec's claim
about it can be stated and compared with what the code returns.
`handlerErr code` stands for an arbitrary error returned by a job handler. -/
inductive GoError where
  | queueFull
  | noHandler
  | ctxCanceled
  | poolClosed
  | handlerErr (code : Nat)
deriving DecidableEq, Repr

/-- `Job` from `pool.go`: `ID`, `Type`, `Retries` (mutable, starts at 0) and
`MaxRetries`. `Payload` and `CreatedAt` play no role in any claim and are
omitted. -/
structure Job where
  id : String
  type : String
  retries : Nat
  maxRetries : Nat
deriving DecidableEq, Repr

/-- `JobResult` from `pool.go`: `JobID`, `Success`, `Error`
(`none` models Go `nil`). `Duration` and `CompletedAt` are wall-clock
bookkeeping and are omitted. -/
structure JobResult where
  jobId : String
  success : Bool
  error : Option GoError
deriving DecidableEq, Repr

/-- How a `JobResult` is sent on `resultQueue`: the bare blocking send
`wp.resultQueue <- result` (no-handler path, pool.go:149) versus the
`select { case wp.resultQueue <- result: default: }` non-blocking send
(end of `processJob`, pool.go:197). -/
inductive SendMode where
  | blocking
  | nonblocking
deriving DecidableEq, Repr

/-- Observable events of one job's lifecycle inside the pool. -/
inductive Event where
  /-- `handler.Handle(ctx, job)` ran; `attempt` is the 0-based attempt
  number, `retries` the job's `Retries` field at invocation time. -/
  | invoke (attempt : Nat) (retries : Nat)
  /-- a `JobResult` was delivered to `resultQueue` (a blocking send always
  delivers; a non-blocking send delivers when the queue has room). -/
  | publish (mode : SendMode) (r : JobResult)
  /-- the non-blocking send hit a full `resultQueue`; the result was
  silently dropped ("Result queue full, dropping result"). -/
  | dropResult (r : JobResult)
  /-- `time.AfterFunc(backoff, ...)` was armed with `delay` seconds. -/
  | scheduleRetry (delay : Nat)
  /-- the delayed `wp.SubmitJob(job)` inside the timer failed; its error is
  ignored by the code, so the job is lost. -/
  | resubmitDropped
deriving DecidableEq, Repr

/-- The environment a single job runs against. The handler registry and the
two queues are shared mutable state; for one job's lifecycle they are
oracles indexed by the attempt number:
`hasHandler` — whether `wp.handlers[job.Type]` exists (the registry is
write-once-before-start, so this is constant);
`handlerResult k` — what `handler.Handle` returns on the job's `k`-th
attempt (`none` = success);
`resultQueueFull k` — whether `resultQueue` is at capacity when attempt `k`
reaches the non-blocking send;
`resubmitOk k` — whether the `SubmitJob` inside the retry timer armed by
attempt `k` succeeds. -/
structure PoolEnv where
  hasHandler : Bool
  handlerResult : Nat → Option GoError
  resultQueueFull : Nat → Bool
  resubmitOk : Nat → Bool

/-- `processJob` (pool.go:136-204), chased through retries: the trace of
events for one job dequeued at attempt number `a`. Mirrors the source:
no registered handler → blocking send of `{success:false, error:ErrNoHandler}`
and return; otherwise the handler runs and a result with
`Success = (err == nil)` is built; on failure with `Retries < MaxRetries`
the code increments `Retries`, arms a timer with
`backoff = Retries*Retries` seconds whose callback re-submits the job
(a successful re-submission leads to the job being dequeued and processed
again, modelled by the recursive call), and returns without publishing;
otherwise the result is sent non-blockingly and dropped if the queue is
full. -/
def processJob (env : PoolEnv) (job : Job) (a : Nat) : List Event :=
  if env.hasHandler = false then
    [.publish .blocking ⟨job.id, false, some .noHandler⟩]
  else
    let err := env.handlerResult a
    let result : JobResult := ⟨job.id, err.isNone, err⟩
    Event.invoke a job.retries ::
      (match err with
       | some _ =>
         if h : job.retries < job.maxRetries then
           let job' : Job := { job with retries := job.retries + 1 }
           Event.scheduleRetry (job'.retries * job'.retries) ::
             (if env.resubmitOk a then processJob env job' (a + 1)
              else [.resubmitDropped])
         else
           if env.resultQueueFull a then [.dropResult result]
           else [.publish .nonblocking result]
       | none =>
         if env.resultQueueFull a then [.dropResult result]
         else [.publish .nonblocking result])
termination_by job.maxRetries - job.retries
decreasing_by simp_wf; omega

/-- Number of handler invocations in a trace. -/
def invocations (es : List Event) : Nat :=
  es.countP fun e => match e with
    | .invoke _ _ => true
    | _ => false

/-- Results actually delivered to `resultQueue`, in order. -/
def published (es : List Event) : List JobResult :=
  es.filterMap fun e => match e with
    | .publish _ r => some r
    | _ => none

/-- Results dropped by the non-blocking send, in order. -/
def droppedResults (es : List Event) : List JobResult :=
  es.filterMap fun e => match e with
    | .dropResult r => some r
    | _ => none

/-- Backoff delays (seconds) of the retry timers armed, in order. -/
def retryDelays (es : List Event) : List Nat :=
  es.filterMap fun e => match e with
    | .scheduleRetry d => some d
    | _ => none

/-- The job's `Retries` value at each handler invocation, in order. -/
def invokedRetries (es : List Event) : List Nat :=
  es.filterMap fun e => match e with
    | .invoke _ r => some r
    | _ => none

/-- Shape of the whole lifecycle of a job whose handler fails on every
attempt, in an environment where the result queue never fills and every
re-submission succeeds: with `fuel = maxRetries - retries` attempts left
beyond the current one, the handler runs `fuel + 1` times, exactly the
final attempt's failure result is delivered, the armed backoff delays are
the squares of the successive incremented retry counts, and nothing is
dropped. -/
theorem processJob_allFail (env : PoolEnv)
    (hh : env.hasHandler = true)
    (hfail : ∀ k, (env.handlerResult k).isSome)
    (hq : ∀ k, env.resultQueueFull k = false)
    (hr : ∀ k, env.resubmitOk k = true) :
    ∀ (fuel : Nat) (job : Job) (a : Nat), job.maxRetries - job.retries = fuel →
      invocations (processJob env job a) = fuel + 1 ∧
      published (processJob env job a) =
        [⟨job.id, false, env.handlerResult (a + fuel)⟩] ∧
      retryDelays (processJob env job a) =
        (List.range fuel).map
          (fun k => (job.retries + (k + 1)) * (job.retries + (k + 1))) ∧
      droppedResults (processJob env job a) = [] := by
  intro fuel
  induction fuel with
  | zero =>
    intro job a hfuel
    obtain ⟨e, he⟩ := Option.isSome_iff_exists.mp (hfail a)
    have hlt : ¬ job.retries < job.maxRetries := by omega
    rw [processJob]
    simp [hh, he, hq a, hlt, invocations, published, retryDelays, droppedResults,
      List.countP_cons]
  | succ n ih =>
    intro job a hfuel
    obtain ⟨e, he⟩ := Option.isSome_iff_exists.mp (hfail a)
    have hlt : job.retries < job.maxRetries := by omega
    obtain ⟨ih1, ih2, ih3, ih4⟩ :=
      ih { job with retries := job.retries + 1 } (a + 1) (by simp; omega)
    rw [processJob]
    simp only [hh, he, hlt, hr a, Bool.false_eq_true, if_false, dif_pos, if_true,
      reduceIte] at *
    refine ⟨?_, ?_, ?_, ?_⟩
    · simp [invocations, List.countP_cons] at ih1 ⊢
      omega
    · simp [published, List.filterMap_cons] at ih2 ⊢
      rw [ih2]
      have : a + 1 + n = a + (n + 1) := by omega
      simp [this]
    · simp [retryDelays, List.filterMap_cons] at ih3 ⊢
      rw [ih3, List.range_succ_eq_map, List.map_cons, List.map_map]
      simp only [List.cons.injEq]
      refine ⟨by ring_nf, ?_⟩
      apply List.map_congr_left
      intro k _
      simp only [Function.comp, Nat.succ_eq_add_one]
      ring
    · simp [droppedResults, List.filterMap_cons] at ih4 ⊢
      exact ih4

/-- C1: a job submitted with `maxRetries = N > 0` whose handler fails on
every attempt has its handler invoked exactly `N+1` times, and exactly one
terminal `JobResult` with `success = false` is delivered (the final
attempt's); no intermediate result is published for the failed attempts
that trigger retries, and nothing is dropped. The hypotheses on
`resultQueueFull` and `resubmitOk` say the result queue has room and the
re-submissions are accepted — the environmental conditions under which
delivery happens at all (the source drops a result when the result queue is
full and ignores a failed re-submission). -/
theorem c1_retry_exhaustion (env : PoolEnv) (job : Job) (N : Nat)
    (hN : 0 < N) (hmax : job.maxRetries = N) (h0 : job.retries = 0)
    (hh : env.hasHandler = true)
    (hfail : ∀ k, (env.handlerResult k).isSome)
    (hq : ∀ k, env.resultQueueFull k = false)
    (hr : ∀ k, env.resubmitOk k = true) :
    invocations (processJob env job 0) = N + 1 ∧
    published (processJob env job 0) = [⟨job.id, false, env.handlerResult N⟩] ∧
    droppedResults (processJob env job 0) = [] := by
  obtain ⟨h1, h2, h3, h4⟩ :=
    processJob_allFail env hh hfail hq hr N job 0 (by omega)
  refine ⟨h1, ?_, h4⟩
  simpa using h2

/-- Concrete run of `c1_retry_exhaustion`: a job with `maxRetries = 2`
whose handler always fails is attempted 3 times and yields exactly the one
terminal failure result. -/
theorem c1_retry_exhaustion_witness :
    invocations (processJob
      ⟨true, fun _ => some (.handlerErr 7), fun _ => false, fun _ => true⟩
      ⟨"j1", "email", 0, 2⟩ 0) = 3 ∧
    published (processJob
      ⟨true, fun _ => some (.handlerErr 7), fun _ => false, fun _ => true⟩
      ⟨"j1", "email", 0, 2⟩ 0) = [⟨"j1", false, some (.handlerErr 7)⟩] ∧
    droppedResults (processJob
      ⟨true, fun _ => some (.handlerErr 7), fun _ => false, fun _ => true⟩
      ⟨"j1", "email", 0, 2⟩ 0) = [] :=
  c1_retry_exhaustion
    ⟨true, fun _ => some (.handlerErr 7), fun _ => false, fun _ => true⟩
    ⟨"j1", "email", 0, 2⟩ 2 (by decide) rfl rfl rfl
    (fun _ => rfl) (fun _ => rfl) (fun _ => rfl)

/-- C3: every retry of a failing job is re-submitted after a delay equal to
the square of the already-incremented retry count: the armed backoff
delays, in order, are `1², 2², …, N²` seconds — `1` after the first
failure, `4` after the second, `9` after the third. -/
theorem c3_backoff_squares (env : PoolEnv) (job : Job) (N : Nat)
    (hmax : job.maxRetries = N) (h0 : job.retries = 0)
    (hh : env.hasHandler = true)
    (hfail : ∀ k, (env.handlerResult k).isSome)
    (hq : ∀ k, env.resultQueueFull k = false)
    (hr : ∀ k, env.resubmitOk k = true) :
    retryDelays (processJob env job 0) =
      (List.range N).map (fun k => (k + 1) * (k + 1)) := by
  obtain ⟨-, -, h3, -⟩ :=
    processJob_allFail env hh hfail hq hr N job 0 (by omega)
  rw [h3, h0]
  simp

/-- Concrete run of `c3_backoff_squares`: with `maxRetries = 3` and an
always-failing handler the armed delays are `[1, 4, 9]`. -/
theorem c3_backoff_squares_witness :
    retryDelays (processJob
      ⟨true, fun _ => some (.handlerErr 0), fun _ => false, fun _ => true⟩
      ⟨"j2", "export", 0, 3⟩ 0) = [1, 4, 9] := by
  have h := c3_backoff_squares
    ⟨true, fun _ => some (.handlerErr 0), fun _ => false, fun _ => true⟩
    ⟨"j2", "export", 0, 3⟩ 3 rfl rfl rfl
    (fun _ => rfl) (fun _ => rfl) (fun _ => rfl)
  rw [h]
  rfl

/-- C4: a dequeued job whose type has no registered handler produces
exactly one event — an unconditional (blocking) publication of
`JobResult{success:false, error:ErrNoHandler}`; the handler is never
invoked and no retry is ever scheduled. -/
theorem c4_no_handler (env : PoolEnv) (job : Job) (a : Nat)
    (hnh : env.hasHandler = false) :
    processJob env job a =
      [.publish .blocking ⟨job.id, false, some .noHandler⟩] ∧
    invocations (processJob env job a) = 0 ∧
    retryDelays (processJob env job a) = [] := by
  rw [processJob]
  simp [hnh, invocations, retryDelays]

/-- Concrete run of `c4_no_handler`: a job of an unregistered type yields
only the blocking `ErrNoHandler` failure result. -/
theorem c4_no_handler_witness :
    processJob ⟨false, fun _ => none, fun _ => false, fun _ => true⟩
        ⟨"j3", "unknown", 0, 5⟩ 0 =
      [.publish .blocking ⟨"j3", false, some .noHandler⟩] ∧
    invocations (processJob ⟨false, fun _ => none, fun _ => false, fun _ => true⟩
        ⟨"j3", "unknown", 0, 5⟩ 0) = 0 ∧
    retryDelays (processJob ⟨false, fun _ => none, fun _ => false, fun _ => true⟩
        ⟨"j3", "unknown", 0, 5⟩ 0) = [] :=
  c4_no_handler ⟨false, fun _ => none, fun _ => false, fun _ => true⟩
    ⟨"j3", "unknown", 0, 5⟩ 0 rfl

/-- Helper for C5: against any environment — any handler outcomes, queue
states and re-submission outcomes — every handler invocation in a job's
lifecycle sees `Retries ≤ MaxRetries`, provided that held at entry:
`Retries` is only incremented under the guard `Retries < MaxRetries`. -/
theorem invokedRetries_le (env : PoolEnv) :
    ∀ (fuel : Nat) (job : Job) (a : Nat),
      job.maxRetries - job.retries ≤ fuel →
      job.retries ≤ job.maxRetries →
      (invokedRetries (processJob env job a)).all
        (fun r => decide (r ≤ job.maxRetries)) = true := by
  intro fuel
  induction fuel with
  | zero =>
    intro job a hfuel hle
    have hlt : ¬ job.retries < job.maxRetries := by omega
    rw [processJob]
    by_cases hh : env.hasHandler = false
    · simp [hh, invokedRetries]
    · cases henv : env.handlerResult a with
      | none =>
        cases hfull : env.resultQueueFull a <;>
          simp [hh, henv, hfull, invokedRetries, List.filterMap_cons, hle]
      | some e =>
        cases hfull : env.resultQueueFull a <;>
          simp [hh, henv, hfull, hlt, invokedRetries, List.filterMap_cons, hle]
  | succ n ih =>
    intro job a hfuel hle
    rw [processJob]
    by_cases hh : env.hasHandler = false
    · simp [hh, invokedRetries]
    · cases henv : env.handlerResult a with
      | none =>
        cases hfull : env.resultQueueFull a <;>
          simp [hh, henv, hfull, invokedRetries, List.filterMap_cons, hle]
      | some e =>
        by_cases hlt : job.retries < job.maxRetries
        · cases hok : env.resubmitOk a with
          | false =>
            simp [hh, henv, hlt, hok, invokedRetries, List.filterMap_cons, hle]
          | true =>
            have hrec := ih { job with retries := job.retries + 1 } (a + 1)
              (by simp; omega) (by simp; omega)
            simp [hh, henv, hlt, hok, invokedRetries,
              List.filterMap_cons, hle] at hrec ⊢
            exact hrec
        · cases hfull : env.resultQueueFull a <;>
            simp [hh, henv, hfull, hlt, invokedRetries, List.filterMap_cons, hle]

/-- C5: for a job submitted with `retryCount = 0`, the invariant
`retryCount ≤ maxRetries` holds at every handler invocation throughout its
lifecycle, in any environment (any handler outcomes, queue states and
re-submission outcomes): the retry count never exceeds `maxRetries`. -/
theorem c5_retryCount_invariant (env : PoolEnv) (job : Job) (a : Nat)
    (h0 : job.retries = 0) :
    (invokedRetries (processJob env job a)).all
      (fun r => decide (r ≤ job.maxRetries)) = true :=
  invokedRetries_le env (job.maxRetries - job.retries) job a le_rfl (by omega)

/-- Concrete run of `c5_retryCount_invariant`: an always-failing job with
`maxRetries = 2` never sees a retry count above 2. -/
theorem c5_retryCount_invariant_witness :
    (invokedRetries (processJob
        ⟨true, fun _ => some (.handlerErr 1), fun _ => false, fun _ => true⟩
        ⟨"j4", "email", 0, 2⟩ 0)).all (fun r => decide (r ≤ 2)) = true :=
  c5_retryCount_invariant
    ⟨true, fun _ => some (.handlerErr 1), fun _ => false, fun _ => true⟩
    ⟨"j4", "email", 0, 2⟩ 0 rfl

/-- C10: terminal-result delivery is asymmetric across failure kinds. A
no-handler result goes through the unconditional blocking send
(`wp.resultQueue <- result`) and is never dropped, even when the result
queue is at capacity; a success result or a retries-exhausted failure
result goes through the non-blocking `select`-with-`default` send and is
silently dropped whenever the result queue is at capacity. -/
theorem c10_send_asymmetry (env : PoolEnv) (job : Job) (a : Nat) :
    (env.hasHandler = false →
      processJob env job a =
        [.publish .blocking ⟨job.id, false, some .noHandler⟩]) ∧
    (env.hasHandler = true → env.handlerResult a = none →
      env.resultQueueFull a = true →
      processJob env job a =
        [.invoke a job.retries, .dropResult ⟨job.id, true, none⟩]) ∧
    (∀ e, env.hasHandler = true → env.handlerResult a = some e →
      ¬ job.retries < job.maxRetries → env.resultQueueFull a = true →
      processJob env job a =
        [.invoke a job.retries, .dropResult ⟨job.id, false, some e⟩]) := by
  refine ⟨fun hnh => ?_, fun hh hs hfull => ?_, fun e hh he hlt hfull => ?_⟩
  · rw [processJob]; simp [hnh]
  · rw [processJob]; simp [hh, hs, hfull]
  · rw [processJob]; simp [hh, he, hlt, hfull]

/-- Concrete runs of `c10_send_asymmetry` with the result queue always at
capacity: the no-handler result is still published; a success result and a
retries-exhausted failure result are dropped. -/
theorem c10_send_asymmetry_witness :
    processJob ⟨false, fun _ => none, fun _ => true, fun _ => true⟩
        ⟨"ja", "t", 0, 0⟩ 0 =
      [.publish .blocking ⟨"ja", false, some .noHandler⟩] ∧
    processJob ⟨true, fun _ => none, fun _ => true, fun _ => true⟩
        ⟨"jb", "t", 0, 0⟩ 0 =
      [.invoke 0 0, .dropResult ⟨"jb", true, none⟩] ∧
    processJob ⟨true, fun _ => some (.handlerErr 3), fun _ => true, fun _ => true⟩
        ⟨"jc", "t", 0, 0⟩ 0 =
      [.invoke 0 0, .dropResult ⟨"jc", false, some (.handlerErr 3)⟩] :=
  ⟨(c10_send_asymmetry ⟨false, fun _ => none, fun _ => true, fun _ => true⟩
      ⟨"ja", "t", 0, 0⟩ 0).1 rfl,
   (c10_send_asymmetry ⟨true, fun _ => none, fun _ => true, fun _ => true⟩
      ⟨"jb", "t", 0, 0⟩ 0).2.1 rfl rfl rfl,
   (c10_send_asymmetry
      ⟨true, fun _ => some (.handlerErr 3), fun _ => true, fun _ => true⟩
      ⟨"jc", "t", 0, 0⟩ 0).2.2 (.handlerErr 3) rfl rfl (by decide) rfl⟩

/-- The pool state visible to `SubmitJob` (pool.go:99-112): the job queue's
length and capacity, whether `wp.cancel()` has run (`Stop()` begun, so
`wp.ctx.Done()` is closed and `wp.ctx.Err()` is `context.Canceled`), and
whether `close(wp.jobQueue)` has run (`Stop()` finished). -/
structure PoolState where
  queueLen : Nat
  queueCap : Nat
  ctxDone : Bool
  queueClosed : Bool
deriving DecidableEq, Repr

/-- Outcome of one `SubmitJob` call: the job was enqueued and `nil`
returned, an error was returned, or the goroutine panicked (a send on a
closed channel panics in Go). -/
inductive SubmitOutcome where
  | enqueued
  | err (e : GoError)
  | panicked
deriving DecidableEq, Repr

/-- The send case `wp.jobQueue <- job` of the `select`, once chosen: on a
closed channel it panics, otherwise the job lands in the queue and
`SubmitJob` returns `nil`. -/
def submitSend (st : PoolState) : SubmitOutcome × PoolState :=
  if st.queueClosed then (.panicked, st)
  else (.enqueued, { st with queueLen := st.queueLen + 1 })

/-- `SubmitJob` (pool.go:99-112):
`select { case wp.jobQueue <- job: return nil;
case <-wp.ctx.Done(): return wp.ctx.Err(); default: return ErrQueueFull }`.
Go `select` semantics: the send case is ready when the buffered queue has
room — or when the channel is closed, in which case choosing it panics;
the `ctx.Done()` case is ready once `Stop()` has cancelled the context and
then yields `wp.ctx.Err() = context.Canceled`; when several cases are
ready one is chosen nondeterministically (`pickSend` resolves that
choice); `default` runs only when no case is ready, so a full queue on a
live pool returns `ErrQueueFull` without blocking. -/
def submitJob (st : PoolState) (pickSend : Bool) : SubmitOutcome × PoolState :=
  let sendReady := st.queueLen < st.queueCap ∨ st.queueClosed = true
  if sendReady ∧ st.ctxDone = true then
    if pickSend then submitSend st else (.err .ctxCanceled, st)
  else if sendReady then submitSend st
  else if st.ctxDone = true then (.err .ctxCanceled, st)
  else (.err .queueFull, st)

/-- Counterexample to C2 as stated: on a pool whose shutdown has begun
(`Stop()` has cancelled the context; queue at capacity 1/1, not yet
closed), `SubmitJob` returns `context.Canceled` — the value of
`wp.ctx.Err()` — which is not the spec's `ErrPoolClosed` (no such error
value exists anywhere in the source). -/
theorem c2_counterexample :
    (submitJob ⟨1, 1, true, false⟩ true).1 = .err .ctxCanceled ∧
    GoError.ctxCanceled ≠ GoError.poolClosed := by
  constructor
  · rfl
  · decide

/-- C2 amended: on a live pool (`Stop()` not begun) `SubmitJob` enqueues
and returns `nil` when the queue is below capacity, and returns
`ErrQueueFull` immediately — without blocking or changing the state — when
it is at capacity; once `Stop()` has begun and the queue is at capacity
(and not yet closed), `SubmitJob` returns the pool context's cancellation
error `context.Canceled`, not `ErrPoolClosed`. -/
theorem c2_submit_amended (st : PoolState) (pick : Bool) :
    (st.ctxDone = false → st.queueClosed = false →
      st.queueLen < st.queueCap →
      submitJob st pick =
        (.enqueued, { st with queueLen := st.queueLen + 1 })) ∧
    (st.ctxDone = false → st.queueClosed = false →
      ¬ st.queueLen < st.queueCap →
      submitJob st pick = (.err .queueFull, st)) ∧
    (st.ctxDone = true → st.queueClosed = false →
      ¬ st.queueLen < st.queueCap →
      submitJob st pick = (.err .ctxCanceled, st)) := by
  refine ⟨fun hc hcl hlen => ?_, fun hc hcl hlen => ?_, fun hc hcl hlen => ?_⟩
  · simp [submitJob, submitSend, hc, hcl, hlen]
  · simp [submitJob, submitSend, hc, hcl, hlen]
  · simp [submitJob, submitSend, hc, hcl, hlen]

/-- Concrete runs of `c2_submit_amended` on a pool of capacity 2: a live
pool enqueues below capacity and reports `ErrQueueFull` at capacity; after
shutdown has begun a full-queue submission reports `context.Canceled`. -/
theorem c2_submit_amended_witness :
    submitJob ⟨0, 2, false, false⟩ true = (.enqueued, ⟨1, 2, false, false⟩) ∧
    submitJob ⟨2, 2, false, false⟩ true = (.err .queueFull, ⟨2, 2, false, false⟩) ∧
    submitJob ⟨2, 2, true, false⟩ true = (.err .ctxCanceled, ⟨2, 2, true, false⟩) :=
  ⟨(c2_submit_amended ⟨0, 2, false, false⟩ true).1 rfl rfl (by decide),
   (c2_submit_amended ⟨2, 2, false, false⟩ true).2.1 rfl rfl (by decide),
   (c2_submit_amended ⟨2, 2, true, false⟩ true).2.2 rfl rfl (by decide)⟩

end Worker

namespace Concurrent

variable {α E : Type}

/-- `createBatches` (batch.go:111-123):
`for i := 0; i < len(items); i += bp.batchSize` slicing
`items[i:min(i+batchSize, len(items))]`. With `batchSize = 0` the Go loop
never advances and does not terminate; the model returns `[]` there, and
every theorem about batching below requires `batchSize ≠ 0`. -/
def createBatches (batchSize : Nat) (items : List α) : List (List α) :=
  if batchSize = 0 then []
  else if items.isEmpty then []
  else items.take batchSize :: createBatches batchSize (items.drop batchSize)
termination_by items.length
decreasing_by
  simp_wf
  simp only [List.isEmpty_iff] at *
  rename_i h1 h2
  have h3 : items.length ≠ 0 := by
    intro h
    exact h2 (List.eq_nil_of_length_eq_zero h)
  omega

theorem createBatches_nil (batchSize : Nat) :
    createBatches batchSize ([] : List α) = [] := by
  rw [createBatches]
  simp

theorem createBatches_cons (batchSize : Nat) (items : List α)
    (hbs : batchSize ≠ 0) (hne : items ≠ []) :
    createBatches batchSize items =
      items.take batchSize :: createBatches batchSize (items.drop batchSize) := by
  rw [createBatches]
  simp [hbs, hne]

/-- The concatenation of the batches is the input: batching partitions the
items in order. -/
theorem createBatches_join (batchSize : Nat) (hbs : batchSize ≠ 0) :
    ∀ items : List α, (createBatches batchSize items).flatten = items := by
  have key : ∀ (n : Nat) (items : List α), items.length ≤ n →
      (createBatches batchSize items).flatten = items := by
    intro n
    induction n with
    | zero =>
      intro items h
      have : items = [] := List.eq_nil_of_length_eq_zero (by omega)
      subst this
      rw [createBatches_nil]
      rfl
    | succ n ih =>
      intro items h
      by_cases hne : items = []
      · subst hne
        rw [createBatches_nil]
        rfl
      · rw [createBatches_cons _ _ hbs hne]
        have hlen : items.length ≠ 0 := by
          intro h0
          exact hne (List.eq_nil_of_length_eq_zero h0)
        rw [List.flatten_cons, ih (items.drop batchSize) (by simp; omega)]
        exact List.take_append_drop _ _
  exact fun items => key items.length items le_rfl

/-- No batch exceeds `batchSize`, and no batch is empty. -/
theorem createBatches_sizes (batchSize : Nat) (hbs : batchSize ≠ 0) :
    ∀ items : List α, ∀ b ∈ createBatches batchSize items,
      b.length ≤ batchSize ∧ b ≠ [] := by
  have key : ∀ (n : Nat) (items : List α), items.length ≤ n →
      ∀ b ∈ createBatches batchSize items, b.length ≤ batchSize ∧ b ≠ [] := by
    intro n
    induction n with
    | zero =>
      intro items h b hb
      have : items = [] := List.eq_nil_of_length_eq_zero (by omega)
      subst this
      rw [createBatches_nil] at hb
      simp at hb
    | succ n ih =>
      intro items h b hb
      by_cases hne : items = []
      · subst hne
        rw [createBatches_nil] at hb
        simp at hb
      · rw [createBatches_cons _ _ hbs hne] at hb
        have hlen : items.length ≠ 0 := by
          intro h0
          exact hne (List.eq_nil_of_length_eq_zero h0)
        rcases List.mem_cons.mp hb with hb | hb
        · subst hb
          refine ⟨by simp, fun hc => ?_⟩
          rcases List.take_eq_nil_iff.mp hc with h0 | h0
          · exact hbs h0
          · exact hne h0
        · exact ih (items.drop batchSize) (by simp; omega) b hb
  exact fun items => key items.length items le_rfl

/-- Every batch except possibly the last has length exactly `batchSize`. -/
theorem createBatches_dropLast_full (batchSize : Nat) (hbs : batchSize ≠ 0) :
    ∀ items : List α, ∀ b ∈ (createBatches batchSize items).dropLast,
      b.length = batchSize := by
  have key : ∀ (n : Nat) (items : List α), items.length ≤ n →
      ∀ b ∈ (createBatches batchSize items).dropLast, b.length = batchSize := by
    intro n
    induction n with
    | zero =>
      intro items h b hb
      have : items = [] := List.eq_nil_of_length_eq_zero (by omega)
      subst this
      rw [createBatches_nil] at hb
      simp at hb
    | succ n ih =>
      intro items h b hb
      by_cases hne : items = []
      · subst hne
        rw [createBatches_nil] at hb
        simp at hb
      · rw [createBatches_cons _ _ hbs hne] at hb
        have hlen : items.length ≠ 0 := by
          intro h0
          exact hne (List.eq_nil_of_length_eq_zero h0)
        by_cases hrest : createBatches batchSize (items.drop batchSize) = []
        · rw [hrest] at hb
          simp at hb
        · rw [List.dropLast_cons_of_ne_nil hrest] at hb
          rcases List.mem_cons.mp hb with hb | hb
          · subst hb
            have hlong : batchSize < items.length := by
              by_contra hc
              have : items.drop batchSize = [] :=
                List.eq_nil_of_length_eq_zero (by simp; omega)
              rw [this, createBatches_nil] at hrest
              exact hrest rfl
            simp
            omega
          · exact ih (items.drop batchSize) (by simp; omega) b hb
  exact fun items => key items.length items le_rfl

/-- With `items.length = 2*batchSize + 1` (and `batchSize ≠ 0`) the input
splits into exactly three batches: two full ones and a final singleton. -/
theorem createBatches_two_full_one (batchSize : Nat) (items : List α)
    (hbs : batchSize ≠ 0) (hlen : items.length = 2 * batchSize + 1) :
    createBatches batchSize items =
      [items.take batchSize, (items.drop batchSize).take batchSize,
       (items.drop batchSize).drop batchSize] := by
  have h1 : items ≠ [] := by
    intro h
    rw [h] at hlen
    simp at hlen
  rw [createBatches_cons _ _ hbs h1]
  have hd1 : (items.drop batchSize).length = batchSize + 1 := by simp; omega
  have h2 : items.drop batchSize ≠ [] := by
    intro h
    rw [h] at hd1
    simp at hd1
  rw [createBatches_cons _ _ hbs h2]
  have hd2 : ((items.drop batchSize).drop batchSize).length = 1 := by
    simp
    omega
  have h3 : (items.drop batchSize).drop batchSize ≠ [] := by
    intro h
    rw [h] at hd2
    simp at hd2
  rw [createBatches_cons _ _ hbs h3]
  have h4 : ((items.drop batchSize).drop batchSize).drop batchSize = [] :=
    List.eq_nil_of_length_eq_zero (by simp; omega)
  rw [h4, createBatches_nil,
    List.take_of_length_le (le_of_eq_of_le hd2 (by omega))]

/-- The result of one run of `BatchProcessor.Process` (batch.go:37-109):
which (index, batch) pairs the processing function was invoked on, in
completion order; the errors received on `errChan`, in the same order; and
the value `Process` returns (`none` = success). -/
structure BatchRun (α E : Type) where
  invoked : List (Nat × List α)
  errors : List E
  result : Option E
deriving Repr

/-- One run of `BatchProcessor.Process` (batch.go:37-109) with the
scheduler's interleaving made explicit. The source returns `nil` at once
on empty input; otherwise it starts one goroutine per batch, each of which
runs `bp.processor` on its batch (`none` = success) and sends any error to
the buffered `errChan`; `wg.Wait()` awaits them all — an error does not
cancel or skip sibling batches — and then the received errors are drained
in channel order and `errors[0]` is returned if any arrived. `sched` lists
the batch indices in the order the goroutines complete, and hence the
order their errors arrive on `errChan`: a permutation of the indices
chosen by the Go scheduler (the `maxWorkers` semaphore bounds how many run
at once but imposes no completion order). -/
def processBatches (batchSize : Nat) (processor : List α → Option E)
    (items : List α) (sched : List Nat) : BatchRun α E :=
  if items.isEmpty then ⟨[], [], none⟩
  else
    let batches := createBatches batchSize items
    let invoked := sched.filterMap
      (fun i => (batches.get? i).map (fun b => (i, b)))
    let errors := invoked.filterMap (fun p => processor p.2)
    ⟨invoked, errors, errors.head?⟩

theorem mem_of_head?_eq_some {β : Type} {l : List β} {x : β}
    (h : l.head? = some x) : x ∈ l := by
  cases l with
  | nil => simp at h
  | cons a t =>
    simp at h
    simp [h]

theorem length_filterMap_of_isSome {β γ : Type} {f : β → Option γ} :
    ∀ l : List β, (∀ x ∈ l, (f x).isSome) → (l.filterMap f).length = l.length := by
  intro l
  induction l with
  | nil => simp
  | cons x xs ih =>
    intro h
    obtain ⟨c, hc⟩ := Option.isSome_iff_exists.mp (h x (List.mem_cons_self x xs))
    rw [List.filterMap_cons_some hc]
    simp only [List.length_cons]
    rw [ih fun y hy => h y (List.mem_cons_of_mem x hy)]

/-- C6: for `batchSize ≠ 0`, `Process` partitions the input in order into
contiguous batches of size at most `batchSize` whose concatenation equals
the input, only the last batch possibly smaller; an input of
`2*batchSize + 1` items yields exactly 3 invocations of the processing
function, the last (in the in-order completion of `maxConcurrency = 1`)
with a single item; and an empty input returns success immediately with no
invocation. -/
theorem c6_batch_partition (batchSize : Nat) (processor : List α → Option E)
    (items : List α) (sched : List Nat) (hbs : batchSize ≠ 0) :
    (createBatches batchSize items).flatten = items ∧
    (∀ b ∈ createBatches batchSize items, b.length ≤ batchSize) ∧
    (∀ b ∈ (createBatches batchSize items).dropLast, b.length = batchSize) ∧
    (items.length = 2 * batchSize + 1 →
      (processBatches batchSize processor items (List.range 3)).invoked.length = 3 ∧
      ((processBatches batchSize processor items (List.range 3)).invoked.map
        (fun p => p.2.length)).getLast? = some 1) ∧
    processBatches batchSize processor ([] : List α) sched =
      ⟨[], [], none⟩ := by
  refine ⟨createBatches_join batchSize hbs items,
    fun b hb => (createBatches_sizes batchSize hbs items b hb).1,
    createBatches_dropLast_full batchSize hbs items,
    fun hlen => ?_, rfl⟩
  have hB := createBatches_two_full_one batchSize items hbs hlen
  have hne : items.isEmpty = false := by
    cases items with
    | nil => simp at hlen
    | cons x xs => rfl
  have hr3 : List.range 3 = [0, 1, 2] := rfl
  have hinv : (processBatches batchSize processor items (List.range 3)).invoked =
      [(0, items.take batchSize), (1, (items.drop batchSize).take batchSize),
       (2, (items.drop batchSize).drop batchSize)] := by
    simp only [processBatches, hne, Bool.false_eq_true, if_false, hB, hr3]
    rfl
  rw [hinv]
  exact ⟨rfl, by simp; omega⟩

/-- Concrete run of `c6_batch_partition` with `batchSize = 2` on 5 items:
the batches concatenate back to the input, the processing function is
invoked 3 times with the last batch a singleton, and the empty input does
nothing. -/
theorem c6_batch_partition_witness :
    (createBatches 2 [1, 2, 3, 4, 5]).flatten = [1, 2, 3, 4, 5] ∧
    (processBatches 2 (fun _ : List Nat => (none : Option Nat))
      [1, 2, 3, 4, 5] (List.range 3)).invoked.length = 3 ∧
    ((processBatches 2 (fun _ : List Nat => (none : Option Nat))
      [1, 2, 3, 4, 5] (List.range 3)).invoked.map
        (fun p => p.2.length)).getLast? = some 1 ∧
    processBatches 2 (fun _ : List Nat => (none : Option Nat))
      ([] : List Nat) [0] = ⟨[], [], none⟩ := by
  obtain ⟨h1, h2, h3, h4, h5⟩ :=
    c6_batch_partition 2 (fun _ : List Nat => (none : Option Nat))
      [1, 2, 3, 4, 5] [0] (by decide)
  exact ⟨h1, (h4 rfl).1, (h4 rfl).2, h5⟩

/-- Small concrete batching used by the C7 statements: two singleton
batches. -/
theorem createBatches_one_ten_twenty :
    createBatches 1 [10, 20] = [[10], [20]] := by
  simp [createBatches]

/-- Counterexample to C7 as stated: `batchSize = 1` over `[10, 20]` with a
processing function failing on every batch with an error equal to the
batch's element. Both schedules are permutations of the batch indices —
legal completion orders, since the batch goroutines race for `errChan` —
yet completion order `[1, 0]` makes `Process` return batch 1's error `20`
while the first error by batch index order is batch 0's `10`. The returned
error is therefore not determined by batch index order. -/
theorem c7_counterexample :
    (processBatches 1 (fun b : List Nat => b.head?) [10, 20] [1, 0]).result =
      some 20 ∧
    (processBatches 1 (fun b : List Nat => b.head?) [10, 20] [0, 1]).result =
      some 10 ∧
    List.Perm [1, 0] (List.range 2) ∧ (20 : Nat) ≠ 10 := by
  refine ⟨?_, ?_, by decide, by decide⟩ <;>
    simp [processBatches, createBatches_one_ten_twenty]

/-- C7 amended: every batch still runs to completion whatever the errors —
exactly one invocation per batch, each invoked pair being a real
(index, batch) of the batching, with no batch skipped or cancelled — and
`Process` returns the first recorded error in completion order (the order
the batch goroutines delivered errors to `errChan`), which is the error of
one of the failing batches but need not belong to the lowest-index one;
`Process` returns success exactly when every batch succeeded. -/
theorem c7_first_error_all_run (batchSize : Nat)
    (processor : List α → Option E) (items : List α) (sched : List Nat)
    (hne : items ≠ [])
    (hs : sched.Perm (List.range (createBatches batchSize items).length)) :
    (processBatches batchSize processor items sched).invoked.length =
      (createBatches batchSize items).length ∧
    (∀ p ∈ (processBatches batchSize processor items sched).invoked,
      (createBatches batchSize items).get? p.1 = some p.2) ∧
    (processBatches batchSize processor items sched).result =
      ((processBatches batchSize processor items sched).errors).head? ∧
    ((processBatches batchSize processor items sched).result = none ↔
      ∀ b ∈ createBatches batchSize items, processor b = none) ∧
    (∀ e, (processBatches batchSize processor items sched).result = some e →
      ∃ b ∈ createBatches batchSize items, processor b = some e) := by
  have hne' : items.isEmpty = false := by
    cases items with
    | nil => exact absurd rfl hne
    | cons x xs => rfl
  have hmem : ∀ i ∈ sched, i < (createBatches batchSize items).length := by
    intro i hi
    simpa using hs.mem_iff.mp hi
  refine ⟨?_, ?_, ?_, ?_, ?_⟩
  · simp only [processBatches, hne', Bool.false_eq_true, if_false]
    rw [length_filterMap_of_isSome]
    · simpa using hs.length_eq
    · intro i hi
      rw [List.get?_eq_get (hmem i hi)]
      rfl
  · intro p hp
    simp only [processBatches, hne', Bool.false_eq_true, if_false] at hp
    obtain ⟨i, hi, hf⟩ := List.mem_filterMap.mp hp
    obtain ⟨b, hb, hba⟩ := Option.map_eq_some'.mp hf
    rw [← hba]
    exact hb
  · simp only [processBatches, hne', Bool.false_eq_true, if_false]
  · simp only [processBatches, hne', Bool.false_eq_true, if_false]
    rw [List.head?_eq_none_iff, List.filterMap_eq_nil_iff]
    constructor
    · intro h b hbB
      obtain ⟨i, hiB⟩ := List.mem_iff_get.mp hbB
      refine h (i.val, b) (List.mem_filterMap.mpr ⟨i.val, ?_, ?_⟩)
      · exact hs.mem_iff.mpr (by simp [i.isLt])
      · rw [List.get?_eq_get i.isLt, hiB]
        rfl
    · intro h p hp
      obtain ⟨i, hi, hf⟩ := List.mem_filterMap.mp hp
      obtain ⟨b, hb, hba⟩ := Option.map_eq_some'.mp hf
      rw [← hba]
      exact h b (List.get?_mem hb)
  · intro e he
    simp only [processBatches, hne', Bool.false_eq_true, if_false] at he
    have hemem := mem_of_head?_eq_some he
    obtain ⟨p, hp, hpe⟩ := List.mem_filterMap.mp hemem
    obtain ⟨i, hi, hf⟩ := List.mem_filterMap.mp hp
    obtain ⟨b, hb, hba⟩ := Option.map_eq_some'.mp hf
    rw [← hba] at hpe
    exact ⟨b, List.get?_mem hb, hpe⟩

/-- Concrete run of `c7_first_error_all_run` on the counterexample data:
under the out-of-order completion `[1, 0]` both batches are still invoked
and the returned error is the head of the completion-order error list. -/
theorem c7_first_error_all_run_witness :
    (processBatches 1 (fun b : List Nat => b.head?) [10, 20] [1, 0]).invoked.length = 2 ∧
    (processBatches 1 (fun b : List Nat => b.head?) [10, 20] [1, 0]).result =
      ((processBatches 1 (fun b : List Nat => b.head?) [10, 20] [1, 0]).errors).head? := by
  obtain ⟨h1, h2, h3, h4, h5⟩ :=
    c7_first_error_all_run 1 (fun b : List Nat => b.head?) [10, 20] [1, 0]
      (by decide) (by rw [createBatches_one_ten_twenty]; decide)
  refine ⟨?_, h3⟩
  rw [h1, createBatches_one_ten_twenty]
  rfl

/-- A pipeline stage as observed through its channels (pipeline.go:10-11):
from the finite stream it reads off its input channel it determines the
items it writes to its output channel before closing it, and the error
value it returns (`none` = `nil`). A failing stage may already have
emitted part of its output. -/
def Stage (α E : Type) : Type := List α → List α × Option E

/-- The stage goroutines of `Pipeline.Process` (pipeline.go:54-72): stage
`i+1` consumes exactly the stream stage `i` produced into queue `i+1`, so
the data flow is the sequential composition of the stage functions.
Returns the items the final stage emitted and the errors the stages sent
to `errChan` (each failing stage sends its error once; they are listed in
stage order). -/
def runStages (stages : List (Stage α E)) (input : List α) :
    List α × List E :=
  match stages with
  | [] => (input, [])
  | s :: rest =>
    let out := s input
    let next := runStages rest out.1
    (next.1, out.2.toList ++ next.2)

/-- `Pipeline.Process` (pipeline.go:32-101): with zero stages it returns
`(items, nil)` immediately; otherwise it feeds `items` through the stages,
waits for all of them (`wg.Wait()`), then drains `errChan` and returns
`(nil, err)` for the first error received — discarding the collected
results — or the collected results with `nil` error if no stage failed. -/
def pipelineProcess (stages : List (Stage α E)) (items : List α) :
    List α × Option E :=
  match stages with
  | [] => (items, none)
  | _ :: _ =>
    let run := runStages stages items
    match run.2 with
    | [] => (run.1, none)
    | e :: _ => ([], some e)

/-- C8: a run in which at least one stage errors returns the first stage
error recorded and an empty (`nil`) results sequence — no partial pipeline
output; with zero configured stages the input comes back unchanged, in
order, with no error; and an error-free run returns the stages' output. -/
theorem c8_error_aborts_and_identity (stages : List (Stage α E))
    (items : List α) :
    pipelineProcess ([] : List (Stage α E)) items = (items, none) ∧
    ((runStages stages items).2 ≠ [] →
      (pipelineProcess stages items).1 = [] ∧
      (pipelineProcess stages items).2 = (runStages stages items).2.head?) ∧
    ((runStages stages items).2 = [] →
      pipelineProcess stages items = ((runStages stages items).1, none)) := by
  refine ⟨rfl, ?_, ?_⟩
  · intro hne
    cases stages with
    | nil => simp [runStages] at hne
    | cons s rest =>
      simp only [pipelineProcess]
      cases herr : (runStages (s :: rest) items).2 with
      | nil => exact absurd herr hne
      | cons e t => simp [herr]
  · intro hnil
    cases stages with
    | nil => rfl
    | cons s rest =>
      simp only [pipelineProcess]
      rw [hnil]

/-- Concrete runs of `c8_error_aborts_and_identity`: a two-stage pipeline
whose second stage fails with error `42` returns `([], some 42)` — the
first stage's partial output is discarded — and the zero-stage pipeline
returns its input unchanged. -/
theorem c8_error_aborts_and_identity_witness :
    pipelineProcess ([] : List (Stage Nat Nat)) [1, 2] = ([1, 2], none) ∧
    pipelineProcess
      [(fun l : List Nat => (l.map (· + 1), (none : Option Nat))),
       (fun _ : List Nat => (([] : List Nat), some 42))] [1, 2] =
      ([], some 42) := by
  obtain ⟨h1, h2, -⟩ := c8_error_aborts_and_identity
    [(fun l : List Nat => (l.map (· + 1), (none : Option Nat))),
     (fun _ : List Nat => (([] : List Nat), some 42))] [1, 2]
  obtain ⟨ha, hb⟩ := h2 (by decide)
  refine ⟨h1, ?_⟩
  rw [Prod.ext_iff]
  exact ⟨ha, hb.trans rfl⟩

/-- `CacheItem` (batch.go, cache section): a value with its absolute
expiry instant. Time is modelled as `Nat` ticks. -/
structure CacheItem (V : Type) where
  value : V
  expiresAt : Nat
deriving Repr, DecidableEq

/-- `CacheItem.IsExpired` (batch.go): `time.Now().After(ci.ExpiresAt)` —
strictly after, so an item is expired exactly when `expiresAt < now`. -/
def CacheItem.isExpired {V : Type} (now : Nat) (ci : CacheItem V) : Bool :=
  decide (ci.expiresAt < now)

/-- `ConcurrentCache` (batch.go, cache section): the `items` map —
modelled as an association list with the entry for a key, if any, found
first, which `Set` maintains exactly as a Go map assignment does — and the
configured `ttl`. The RW mutex only serialises operations and plays no
role in the sequential semantics of one operation. -/
structure ConcurrentCache (K V : Type) where
  items : List (K × CacheItem V)
  ttl : Nat

variable {K V : Type} [DecidableEq K]

/-- Go map read `item, exists := c.items[key]`. -/
def ConcurrentCache.lookup (c : ConcurrentCache K V) (k : K) :
    Option (CacheItem V) :=
  (c.items.find? (fun p => decide (p.1 = k))).map Prod.snd

/-- `ConcurrentCache.Set` (batch.go): under the write lock, inserts or
overwrites `key` with the value and `ExpiresAt = time.Now().Add(c.ttl)`,
i.e. the write time plus the ttl. -/
def ConcurrentCache.set (c : ConcurrentCache K V) (now : Nat) (k : K)
    (v : V) : ConcurrentCache K V :=
  { c with items := (k, ⟨v, now + c.ttl⟩) ::
      c.items.filter (fun p => !(decide (p.1 = k))) }

/-- `ConcurrentCache.Get` (batch.go): under the read lock, looks the key
up; an absent key or an expired item (`now > expiresAt`) yields the
zero value and `false` — modelled `(none, false)`. The body holds only
`RLock` and deletes nothing, so the cache state after the call — the
second component — is the receiver unchanged. -/
def ConcurrentCache.get (c : ConcurrentCache K V) (now : Nat) (k : K) :
    (Option V × Bool) × ConcurrentCache K V :=
  match c.lookup k with
  | none => ((none, false), c)
  | some item =>
    if item.isExpired now then ((none, false), c)
    else ((some item.value, true), c)

/-- `ConcurrentCache.Size` (batch.go): `len(c.items)`, counting
not-yet-swept expired entries. -/
def ConcurrentCache.size (c : ConcurrentCache K V) : Nat :=
  c.items.length

/-- C9: `Set(k, v)` stores an entry whose `expiresAt` is the write time
plus `ttl`; a `Get(k)` at any time up to `expiresAt` returns `(v, true)`;
once `now > expiresAt` the `Get` returns `(zero, false)` even though no
sweep has run — and the `Get` does not remove the expired entry: the cache
state after the call is unchanged, so the entry is still present and
`Size` is unaffected. -/
theorem c9_cache_ttl (c : ConcurrentCache K V) (now t : Nat) (k : K)
    (v : V) :
    (c.set now k v).lookup k = some ⟨v, now + c.ttl⟩ ∧
    (t ≤ now + c.ttl → ((c.set now k v).get t k).1 = (some v, true)) ∧
    (now + c.ttl < t → ((c.set now k v).get t k).1 = (none, false)) ∧
    ((c.set now k v).get t k).2 = c.set now k v ∧
    ((c.set now k v).get t k).2.size = (c.set now k v).size := by
  have hl : (c.set now k v).lookup k = some ⟨v, now + c.ttl⟩ := by
    simp [ConcurrentCache.set, ConcurrentCache.lookup, List.find?_cons]
  refine ⟨hl, ?_, ?_, ?_, ?_⟩
  · intro ht
    have hexp : CacheItem.isExpired t ⟨v, now + c.ttl⟩ = false := by
      simp [CacheItem.isExpired]
      omega
    simp [ConcurrentCache.get, hl, hexp]
  · intro ht
    have hexp : CacheItem.isExpired t ⟨v, now + c.ttl⟩ = true := by
      simp [CacheItem.isExpired]
      omega
    simp [ConcurrentCache.get, hl, hexp]
  · simp only [ConcurrentCache.get, hl]
    by_cases hexp : CacheItem.isExpired t ⟨v, now + c.ttl⟩ = true <;>
      simp [hexp]
  · simp only [ConcurrentCache.get, hl]
    by_cases hexp : CacheItem.isExpired t ⟨v, now + c.ttl⟩ = true <;>
      simp [hexp]

/-- Concrete runs of `c9_cache_ttl` with `ttl = 5`: a value written at
time 0 is readable at time 3, gone (but not deleted) at time 7. -/
theorem c9_cache_ttl_witness :
    ((⟨[], 5⟩ : ConcurrentCache Nat Nat).set 0 1 99).lookup 1 =
      some ⟨99, 5⟩ ∧
    (((⟨[], 5⟩ : ConcurrentCache Nat Nat).set 0 1 99).get 3 1).1 =
      (some 99, true) ∧
    (((⟨[], 5⟩ : ConcurrentCache Nat Nat).set 0 1 99).get 7 1).1 =
      (none, false) ∧
    (((⟨[], 5⟩ : ConcurrentCache Nat Nat).set 0 1 99).get 7 1).2 =
      (⟨[], 5⟩ : ConcurrentCache Nat Nat).set 0 1 99 :=
  ⟨(c9_cache_ttl ⟨[], 5⟩ 0 3 1 99).1,
   (c9_cache_ttl ⟨[], 5⟩ 0 3 1 99).2.1 (by decide),
   (c9_cache_ttl ⟨[], 5⟩ 0 7 1 99).2.2.1 (by decide),
   (c9_cache_ttl ⟨[], 5⟩ 0 7 1 99).2.2.2.1⟩

end Concurrent
